import Mathlib

/-!
# Verification of the kor schema-driven prompt compiler and response parser

The repository's notebooks exercise a structured-information-extraction
library: a schema (`Object` / `Text` / `Number` nodes, optionally carrying
few-shot example pairs) is compiled into a prompt string, and the model's
tagged or JSON-formatted response is parsed back into a mapping.  The
library implementation itself is not part of the repository's files; the
definitions below are modelled from the specification and are anchored,
character for character, to the prompt strings and results printed in the
notebooks.
-/

set_option maxRecDepth 100000

namespace Kor

/-! ## JSON-like values (the untyped payloads of examples and results) -/

mutual
/-- Modelled from the spec: the nested mapping values the library moves
around (Python dict/list/str/int payloads of example pairs and extraction
results).  The actual value type lives in the library, which is not in the
repository's files. -/
inductive JsonValue where
  | str (s : String)
  | num (n : Int)
  | arr (items : JsonList)
  | obj (members : JsonObj)

/-- Spine of a JSON array (mutual with `JsonValue`). -/
inductive JsonList where
  | nil
  | cons (head : JsonValue) (tail : JsonList)

/-- Spine of a JSON object: ordered key/value members. -/
inductive JsonObj where
  | nil
  | cons (key : String) (value : JsonValue) (tail : JsonObj)
end

deriving instance DecidableEq for JsonValue
deriving instance DecidableEq for JsonList
deriving instance DecidableEq for JsonObj

/-! ## Serializing values the way Python's `json.dumps` renders them -/

/-- Digits of `n`, least significant first; `fuel` bounds the recursion and
is instantiated with `n` itself. -/
def digitsRevAux : Nat → Nat → List Char
  | _, 0 => []
  | 0, _ + 1 => []
  | fuel + 1, n + 1 => Char.ofNat (48 + (n + 1) % 10) :: digitsRevAux fuel ((n + 1) / 10)

/-- Decimal digits of `n`, least significant first (`[]` for `0`). -/
def digitsRev (n : Nat) : List Char := digitsRevAux n n

/-- Decimal notation of a natural number, as characters. -/
def natDigits (n : Nat) : List Char :=
  if n = 0 then ['0'] else (digitsRev n).reverse

/-- Decimal notation of an integer, as characters. -/
def intChars (n : Int) : List Char :=
  if n < 0 then '-' :: natDigits (-n).toNat else natDigits n.toNat

/-- JSON string-escaping: quotes and backslashes get a backslash, as
`json.dumps` does. -/
def escChars : List Char → List Char
  | [] => []
  | c :: tl => if c = '"' ∨ c = '\\' then '\\' :: c :: escChars tl else c :: escChars tl

mutual
/-- Modelled from the spec: the characters of the JSON serialization of a
value, in the format `json.dumps` uses (`", "` between items and members,
`": "` after keys); the serializer itself lives in the library, which is not
in the repository's files. -/
def charsVal : JsonValue → List Char
  | .str s => '"' :: (escChars s.data ++ ['"'])
  | .num n => intChars n
  | .arr xs => '[' :: (charsItems xs ++ [']'])
  | .obj ms => '\x7b' :: (charsMembers ms ++ ['\x7d'])

/-- Characters of the comma-separated items of a JSON array. -/
def charsItems : JsonList → List Char
  | .nil => []
  | .cons v .nil => charsVal v
  | .cons v (.cons w tl) => charsVal v ++ ',' :: ' ' :: charsItems (.cons w tl)

/-- Characters of the comma-separated members of a JSON object. -/
def charsMembers : JsonObj → List Char
  | .nil => []
  | .cons k v .nil => '"' :: (escChars k.data ++ '"' :: ':' :: ' ' :: charsVal v)
  | .cons k v (.cons k2 w tl) =>
      '"' :: (escChars k.data ++ '"' :: ':' :: ' ' :: charsVal v)
        ++ ',' :: ' ' :: charsMembers (.cons k2 w tl)
end

/-- JSON serialization of a value, as a string. -/
def dumps (v : JsonValue) : String := String.mk (charsVal v)

/-! ## The schema model (`kor.nodes`: `Text`, `Number`, `Object`) -/

mutual
/-- Modelled from the spec: the schema tree of fields to extract
(`kor.nodes.Text`, `Number`, `Object`), each with an id, a human-readable
description and optional few-shot example pairs; the node classes live in
the library, which is not in the repository's files. -/
inductive SchemaNode where
  | text (id description : String) (examples : List (String × String))
  | number (id description : String) (examples : List (String × String))
  | object (id description : String) (attributes : SchemaList)
      (examples : List (String × JsonValue))

/-- Spine of an `Object` node's attribute list (mutual with `SchemaNode`). -/
inductive SchemaList where
  | nil
  | cons (head : SchemaNode) (tail : SchemaList)
end

/-- Modelled from the spec: the two output conventions the compiler can
instruct the model to use — per-field HTML-style tags, or one JSON object in
a `<json>` delimiter tag. -/
inductive Encoder where
  | tag
  | json

/-! ## The prompt compiler (`format_as_string` / `format_prompt`) -/

/-- The fixed first paragraph of every compiled prompt. -/
def preambleText : String :=
  "Your goal is to extract structured information from the user's input that matches the form described below. When extracting information please make sure it matches the type information exactly. Do not add any attributes that do not appear in the schema shown below."

/-- The instruction paragraphs of the HTML-style-tag output convention. -/
def tagInstructionsText : String :=
  "For Union types the output must EXACTLY match one of the members of the Union type.\n\nPlease enclose the extracted information in HTML style tags with the tag name corresponding to the corresponding component ID. Use angle style brackets for the tags ('>' and '<'). Only output tags when you're confident about the information that was extracted from the user's query. If you can extract several pieces of relevant information from the query, then include all of them. If the type is an array, please repeat the corresponding tag name multiple times once for each relevant extraction. Do NOT output anything except for the extracted information. Only output information inside the HTML style tags. Do not include any notes or any clarifications. "

/-- The instruction paragraph of the JSON output convention. -/
def jsonInstructionsText : String :=
  "Please output the extracted information in JSON format. Do not output anything except for the extracted information. Do not add any clarifying information. Do not add any fields that are not in the schema. If the text contains attributes that do not appear in the schema, please ignore them. All output must be in JSON format and follow the schema specified above. Wrap the JSON in <json> tags."

/-- Instruction text for each output convention. -/
def encInstructions : Encoder → String
  | .tag => tagInstructionsText
  | .json => jsonInstructionsText

/-- `n` spaces. -/
def indentStr (n : Nat) : String := String.mk (List.replicate n ' ')

mutual
/-- Modelled from the spec: the lines of the TypeScript-style type
descriptor of a schema node, the field's description rendered inline as a
`//` comment on its line; the descriptor generator lives in the library,
which is not in the repository's files. -/
def nodeLines (depth : Nat) : SchemaNode → List String
  | .text i d _ => [indentStr depth ++ i ++ ": string[] // " ++ d]
  | .number i d _ => [indentStr depth ++ i ++ ": number[] // " ++ d]
  | .object i d attrs _ =>
      (indentStr depth ++ i ++ ": \x7b // " ++ d)
        :: (nodeLinesList (depth + 1) attrs ++ [indentStr depth ++ "\x7d"])

/-- Type-descriptor lines of a list of attributes. -/
def nodeLinesList (depth : Nat) : SchemaList → List String
  | .nil => []
  | .cons a tl => nodeLines depth a ++ nodeLinesList depth tl
end

/-- Type-descriptor lines of a whole schema: a bare leaf is wrapped in an
anonymous brace pair, an object renders under its own id. -/
def typeLines : SchemaNode → List String
  | .object i d attrs exs => nodeLines 0 (.object i d attrs exs)
  | s => "\x7b" :: (nodeLines 1 s ++ ["\x7d"])

/-- The fenced `TypeScript` block of the compiled prompt. -/
def typeBlock (s : SchemaNode) : String :=
  "```TypeScript\n\n" ++ String.intercalate "\n" (typeLines s) ++ "\n```\n"

/-- An example output in HTML-style tags: `<id>text</id>`. -/
def tagWrap (i out : String) : String := "<" ++ i ++ ">" ++ out ++ "</" ++ i ++ ">"

/-- Modelled from the spec: how an `Object` example's output value is
rendered under each output convention (the JSON convention wraps
`{id: value}` serialized by `dumps` in a `<json>` tag). -/
def encodeObjectOutput (enc : Encoder) (i : String) (v : JsonValue) : String :=
  match enc with
  | .json => "<json>" ++ dumps (.obj (.cons i v .nil)) ++ "</json>"
  | .tag => tagWrap i (dumps v)

mutual
/-- Modelled from the spec: the `(input, encoded output)` example exchanges a
schema contributes to the compiled prompt, in schema order; the example
generator lives in the library, which is not in the repository's files. -/
def exampleExchanges (enc : Encoder) : SchemaNode → List (String × String)
  | .text i _ exs => exs.map fun e => (e.1, tagWrap i e.2)
  | .number i _ exs => exs.map fun e => (e.1, tagWrap i e.2)
  | .object i _ attrs exs =>
      exs.map (fun e => (e.1, encodeObjectOutput enc i e.2))
        ++ exampleExchangesList enc attrs

/-- Example exchanges contributed by a list of attributes. -/
def exampleExchangesList (enc : Encoder) : SchemaList → List (String × String)
  | .nil => []
  | .cons a tl => exampleExchanges enc a ++ exampleExchangesList enc tl
end

/-- One rendered example exchange. -/
def renderExchange (e : String × String) : String :=
  "Input: " ++ e.1 ++ "\nOutput: " ++ e.2 ++ "\n"

/-- Modelled from the spec: the prompt compiler (`format_as_string` /
`format_prompt` in the notebooks): instruction preamble, type block, output
convention instructions, the example exchanges, then the placeholder
exchange for the real input.  The compiler lives in the library, which is
not in the repository's files; this model reproduces the notebooks' printed
prompts character for character. -/
def format_as_string (enc : Encoder) (userInput : String) (s : SchemaNode) : String :=
  String.intercalate "\n\n" [preambleText, typeBlock s, encInstructions enc]
    ++ "\n\n"
    ++ String.join ((exampleExchanges enc s).map renderExchange)
    ++ "Input: " ++ userInput ++ "\nOutput:"

/-! ## The notebooks' concrete schemas and printed prompts -/

/-- The `phone_number` schema of the first notebook, without examples. -/
def phoneSchemaNoExamples : SchemaNode :=
  .text "phone_number"
    "Any phone numbers found in the text. Should be output in the format: (xxx)-xxx-xxxx"
    []

/-- The `phone_number` schema of the first notebook, with one example pair. -/
def phoneSchemaOneExample : SchemaNode :=
  .text "phone_number"
    "Any phone numbers found in the text. Should be output in the format: (xxx)-xxx-xxxx"
    [("Someone called me from 1231231234", "(123)-123-1234")]

/-- The example output value of the untyped-object notebook: two mover
records. -/
def moversValue : JsonValue :=
  .arr (.cons
    (.obj (.cons "person_name" (.str "John Smith")
      (.cons "from_address" (.obj (.cons "city" (.str "New York") .nil))
        (.cons "to_address" (.obj (.cons "city" (.str "Boston") .nil)) .nil))))
    (.cons
      (.obj (.cons "person_name" (.str "Billy")
        (.cons "to_address" (.obj (.cons "city" (.str "LA") .nil)) .nil)))
      .nil))

/-- The untyped `information` schema of the second notebook: no attributes,
one example pair. -/
def untypedSchema : SchemaNode :=
  .object "information" "" .nil
    [("John Smith moved to Boston from New York. Billy moved to LA.", moversValue)]

/-- The lines of the prompt printed by the first notebook for the schema
without examples, transcribed verbatim. -/
def promptNoExamplesLines : List String :=
  ["Your goal is to extract structured information from the user's input that matches the form described below. When extracting information please make sure it matches the type information exactly. Do not add any attributes that do not appear in the schema shown below.",
   "",
   "```TypeScript",
   "",
   "\x7b",
   " phone_number: string[] // Any phone numbers found in the text. Should be output in the format: (xxx)-xxx-xxxx",
   "\x7d",
   "```",
   "",
   "",
   "For Union types the output must EXACTLY match one of the members of the Union type.",
   "",
   "Please enclose the extracted information in HTML style tags with the tag name corresponding to the corresponding component ID. Use angle style brackets for the tags ('>' and '<'). Only output tags when you're confident about the information that was extracted from the user's query. If you can extract several pieces of relevant information from the query, then include all of them. If the type is an array, please repeat the corresponding tag name multiple times once for each relevant extraction. Do NOT output anything except for the extracted information. Only output information inside the HTML style tags. Do not include any notes or any clarifications. ",
   "",
   "Input: [user input goes here]",
   "Output:"]

/-- The prompt printed by the first notebook for the schema without
examples: its transcribed lines joined by newlines. -/
def promptNoExamplesLiteral : String :=
  String.intercalate "\n" promptNoExamplesLines

/-- The lines of the prompt printed by the first notebook for the schema
with one example pair, transcribed verbatim. -/
def promptOneExampleLines : List String :=
  ["Your goal is to extract structured information from the user's input that matches the form described below. When extracting information please make sure it matches the type information exactly. Do not add any attributes that do not appear in the schema shown below.",
   "",
   "```TypeScript",
   "",
   "\x7b",
   " phone_number: string[] // Any phone numbers found in the text. Should be output in the format: (xxx)-xxx-xxxx",
   "\x7d",
   "```",
   "",
   "",
   "For Union types the output must EXACTLY match one of the members of the Union type.",
   "",
   "Please enclose the extracted information in HTML style tags with the tag name corresponding to the corresponding component ID. Use angle style brackets for the tags ('>' and '<'). Only output tags when you're confident about the information that was extracted from the user's query. If you can extract several pieces of relevant information from the query, then include all of them. If the type is an array, please repeat the corresponding tag name multiple times once for each relevant extraction. Do NOT output anything except for the extracted information. Only output information inside the HTML style tags. Do not include any notes or any clarifications. ",
   "",
   "Input: Someone called me from 1231231234",
   "Output: <phone_number>(123)-123-1234</phone_number>",
   "Input: [user input goes here]",
   "Output:"]

/-- The prompt printed by the first notebook for the schema with one
example pair: its transcribed lines joined by newlines. -/
def promptOneExampleLiteral : String :=
  String.intercalate "\n" promptOneExampleLines

/-- The lines of the prompt printed by the untyped-object notebook,
transcribed verbatim. -/
def promptUntypedLines : List String :=
  ["Your goal is to extract structured information from the user's input that matches the form described below. When extracting information please make sure it matches the type information exactly. Do not add any attributes that do not appear in the schema shown below.",
   "",
   "```TypeScript",
   "",
   "information: \x7b // ",
   "\x7d",
   "```",
   "",
   "",
   "Please output the extracted information in JSON format. Do not output anything except for the extracted information. Do not add any clarifying information. Do not add any fields that are not in the schema. If the text contains attributes that do not appear in the schema, please ignore them. All output must be in JSON format and follow the schema specified above. Wrap the JSON in <json> tags.",
   "",
   "Input: John Smith moved to Boston from New York. Billy moved to LA.",
   "Output: <json>\x7b\"information\": [\x7b\"person_name\": \"John Smith\", \"from_address\": \x7b\"city\": \"New York\"\x7d, \"to_address\": \x7b\"city\": \"Boston\"\x7d\x7d, \x7b\"person_name\": \"Billy\", \"to_address\": \x7b\"city\": \"LA\"\x7d\x7d]\x7d</json>",
   "Input: [user_input]",
   "Output:"]

/-- The prompt printed by the untyped-object notebook: its transcribed
lines joined by newlines. -/
def promptUntypedLiteral : String :=
  String.intercalate "\n" promptUntypedLines

/-! ## The tag-convention response parser -/

/-- Whether `pat` is a prefix of `l` (plain Boolean prefix test). -/
def isPre : List Char → List Char → Bool
  | [], _ => true
  | _ :: _, [] => false
  | a :: as, b :: bs => a == b && isPre as bs

/-- First occurrence of `pat` as a contiguous sublist of `l`:
`some (before, after)` with `l = before ++ pat ++ after`, scanning left to
right; `none` when `pat` does not occur. -/
def findSub (pat : List Char) : List Char → Option (List Char × List Char)
  | [] => if isPre pat [] then some ([], []) else none
  | c :: tl =>
    if isPre pat (c :: tl) then some ([], (c :: tl).drop pat.length)
    else
      match findSub pat tl with
      | some (pre, post) => some (c :: pre, post)
      | none => none

/-- The opening tag of a field id, as characters. -/
def tagOpenChars (id : String) : List Char := '<' :: (id.data ++ ['>'])

/-- The closing tag of a field id, as characters. -/
def tagCloseChars (id : String) : List Char := '<' :: '/' :: (id.data ++ ['>'])

/-- Modelled from the spec: one step per character of the lenient tag
scanner — at an opening tag, the text up to the next closing tag is one
extracted value and scanning resumes after it; an opening tag with no
closing tag is a malformed fragment and is dropped; any other character is
skipped.  `fuel` bounds the recursion and is instantiated with the input
length.  The scanner itself lives in the library, which is not in the
repository's files. -/
def extractTagsAux (openT closeT : List Char) : Nat → List Char → List String
  | 0, _ => []
  | _ + 1, [] => []
  | fuel + 1, c :: tl =>
    if isPre openT (c :: tl) then
      match findSub closeT ((c :: tl).drop openT.length) with
      | some (content, post) => String.mk content :: extractTagsAux openT closeT fuel post
      | none => []
    else extractTagsAux openT closeT fuel tl

/-- All values enclosed in `<id>...</id>` tags in `l`, left to right. -/
def extractTags (id : String) (l : List Char) : List String :=
  extractTagsAux (tagOpenChars id) (tagCloseChars id) l.length l

/-- A list of strings as a JSON array of JSON strings (the shape of a
leaf field's entry in an extraction result). -/
def strArr (vs : List String) : JsonValue :=
  .arr (vs.foldr (fun s acc => JsonList.cons (JsonValue.str s) acc) JsonList.nil)

mutual
/-- Modelled from the spec: the tag-convention response parser — for each
leaf field, the values enclosed in tags named by the field id, collected as
a list under the field id; a field with no extracted value is left out of
the mapping; an object collects its attributes' fields.  The parser lives
in the library, which is not in the repository's files. -/
def parseTagResponse : SchemaNode → String → List (String × JsonValue)
  | .text i _ _, t =>
      match extractTags i t.data with
      | [] => []
      | vs => [(i, strArr vs)]
  | .number i _ _, t =>
      match extractTags i t.data with
      | [] => []
      | vs => [(i, strArr vs)]
  | .object _ _ attrs _, t => parseTagList attrs t

/-- Tag-convention parsing over a list of attributes, results concatenated
in schema order. -/
def parseTagList : SchemaList → String → List (String × JsonValue)
  | .nil, _ => []
  | .cons a tl, t => parseTagResponse a t ++ parseTagList tl t
end

/-! ## The JSON-convention response parser -/

/-- Whether a character is a decimal digit. -/
def isDigitCh (c : Char) : Bool := 48 ≤ c.toNat && c.toNat ≤ 57

/-- Drop leading spaces. -/
def skipSpaces : List Char → List Char
  | [] => []
  | c :: tl => if c = ' ' then skipSpaces tl else c :: tl

/-- Body of a JSON string after its opening quote: the unescaped
characters up to the closing quote, and the rest of the input. -/
def parseStringChars : List Char → Option (List Char × List Char)
  | [] => none
  | c :: tl =>
    if c = '\\' then
      match tl with
      | [] => none
      | e :: tl2 => (parseStringChars tl2).map fun p => (e :: p.1, p.2)
    else if c = '"' then some ([], tl)
    else (parseStringChars tl).map fun p => (c :: p.1, p.2)

/-- Consume a run of decimal digits, accumulating their value onto `acc`. -/
def parseDigitsAux (acc : Nat) : List Char → Nat × List Char
  | [] => (acc, [])
  | c :: tl =>
    if isDigitCh c then parseDigitsAux (10 * acc + (c.toNat - 48)) tl
    else (acc, c :: tl)

mutual
/-- Modelled from the spec: recursive-descent parser for one JSON value
(string, integer, array or object, the format the compiled prompt asks
for); `fuel` bounds the recursion and is instantiated with the input
length.  The parser lives in the library, which is not in the repository's
files. -/
def parseVal : Nat → List Char → Option (JsonValue × List Char)
  | 0, _ => none
  | _ + 1, [] => none
  | fuel + 1, c :: tl =>
    if c = '"' then
      (parseStringChars tl).map fun p => (.str (String.mk p.1), p.2)
    else if c = '[' then
      match tl with
      | [] => none
      | t :: r =>
        if t = ']' then some (.arr .nil, r)
        else (parseItems fuel (t :: r)).map fun p => (.arr p.1, p.2)
    else if c = '\x7b' then
      match tl with
      | [] => none
      | t :: r =>
        if t = '\x7d' then some (.obj .nil, r)
        else (parseMembers fuel (t :: r)).map fun p => (.obj p.1, p.2)
    else if c = '-' then
      match tl with
      | [] => none
      | d :: tl2 =>
        if isDigitCh d then
          let pr := parseDigitsAux (d.toNat - 48) tl2
          some (.num (-(pr.1 : Int)), pr.2)
        else none
    else if isDigitCh c then
      let pr := parseDigitsAux (c.toNat - 48) tl
      some (.num (pr.1 : Int), pr.2)
    else none

/-- One or more comma-separated JSON values followed by `]`. -/
def parseItems : Nat → List Char → Option (JsonList × List Char)
  | 0, _ => none
  | fuel + 1, l =>
    match parseVal fuel l with
    | none => none
    | some (v, r) =>
      match r with
      | [] => none
      | c :: r2 =>
        if c = ']' then some (.cons v .nil, r2)
        else if c = ',' then
          match parseItems fuel (skipSpaces r2) with
          | some (xs, r3) => some (.cons v xs, r3)
          | none => none
        else none

/-- One or more comma-separated `"key": value` members followed by `}`. -/
def parseMembers : Nat → List Char → Option (JsonObj × List Char)
  | 0, _ => none
  | fuel + 1, l =>
    match l with
    | [] => none
    | c :: tl =>
      if c = '"' then
        match parseStringChars tl with
        | none => none
        | some (k, r1) =>
          match r1 with
          | [] => none
          | c2 :: r2 =>
            if c2 = ':' then
              match parseVal fuel (skipSpaces r2) with
              | none => none
              | some (v, r3) =>
                match r3 with
                | [] => none
                | c3 :: r4 =>
                  if c3 = '\x7d' then some (.cons (String.mk k) v .nil, r4)
                  else if c3 = ',' then
                    match parseMembers fuel (skipSpaces r4) with
                    | some (ms, r5) => some (.cons (String.mk k) v ms, r5)
                    | none => none
                  else none
            else none
      else none
end

/-- Parse a whole JSON document: one value, nothing but spaces around it. -/
def parseTop (l : List Char) : Option JsonValue :=
  match parseVal (l.length + 1) (skipSpaces l) with
  | some (v, r) => if skipSpaces r = [] then some v else none
  | none => none

/-- The `<json>` delimiter tag, as characters. -/
def openJsonChars : List Char := ['<', 'j', 's', 'o', 'n', '>']

/-- The `</json>` delimiter tag reversed (the parser looks for the last
occurrence by scanning the reversed text). -/
def closeJsonRevChars : List Char := ['>', 'n', 'o', 's', 'j', '/', '<']

/-- Modelled from the spec: the text between the first `<json>` tag and the
last `</json>` tag of a response (the greedy delimiter match); `none` when
either tag is missing.  The extraction lives in the library, which is not
in the repository's files. -/
def stripJsonTags (l : List Char) : Option (List Char) :=
  (findSub openJsonChars l).bind fun pr =>
    (findSub closeJsonRevChars pr.2.reverse).map fun pr2 => pr2.2.reverse

/-- Modelled from the spec: the JSON-convention response parser — strip the
`<json>` delimiter tag and parse the JSON object inside.  The parser lives
in the library, which is not in the repository's files. -/
def parseJsonResponse (t : String) : Option JsonValue :=
  (stripJsonTags t.data).bind parseTop

/-- The JSON output convention's serialization of a value: the JSON text
wrapped in the fixed `<json>` delimiter tag. -/
def encodeJsonTagged (v : JsonValue) : String :=
  "<json>" ++ dumps v ++ "</json>"

/-- Whether a prompt line is an `Input:`/`Output:` exchange line (starts
with `Input` or `Output`). -/
def lineIsIO (l : String) : Bool :=
  isPre "Input".data l.data || isPre "Output".data l.data

/-- Whether a character list does not start with a decimal digit (so a
just-parsed number cannot be extended by what follows). -/
def notDigitStart : List Char → Bool
  | [] => true
  | c :: _ => !isDigitCh c

/-! ## General string helpers -/

/-- Two strings with the same character list are equal. -/
theorem eq_of_data_eq (s t : String) (h : s.data = t.data) : s = t := by
  cases s; cases t; exact congrArg String.mk h

/-- Two lists agreeing on their first `n` elements and on the rest are
equal (lets long concrete lists be compared in stack-friendly chunks). -/
theorem eq_of_chunks {α : Type} (n : Nat) (l m : List α)
    (h1 : l.take n = m.take n) (h2 : l.drop n = m.drop n) : l = m := by
  rw [← List.take_append_drop n l, h1, h2, List.take_append_drop]

/-! ## Anchors: the modelled compiler against the notebooks' output -/

/-- Anchor: the modelled compiler reproduces the first notebook's printed
prompt for the no-example schema, character for character. -/
theorem format_matches_notebook_noExamples :
    format_as_string .tag "[user input goes here]" phoneSchemaNoExamples
      = promptNoExamplesLiteral := by
  apply eq_of_data_eq
  apply eq_of_chunks 450
  · decide
  apply eq_of_chunks 450
  · decide
  · decide

/-- Anchor: the modelled compiler reproduces the first notebook's printed
prompt for the one-example schema, character for character. -/
theorem format_matches_notebook_oneExample :
    format_as_string .tag "[user input goes here]" phoneSchemaOneExample
      = promptOneExampleLiteral := by
  apply eq_of_data_eq
  apply eq_of_chunks 450
  · decide
  apply eq_of_chunks 450
  · decide
  apply eq_of_chunks 450
  · decide
  · decide

/-- Anchor: the modelled compiler reproduces the untyped-object notebook's
printed prompt, character for character. -/
theorem format_matches_notebook_untyped :
    format_as_string .json "[user_input]" untypedSchema
      = promptUntypedLiteral := by
  apply eq_of_data_eq
  apply eq_of_chunks 450
  · decide
  apply eq_of_chunks 450
  · decide
  · decide

/-- Sanity: the untyped-object notebook's example value survives a
serialize/parse round trip through the `<json>` convention. -/
theorem movers_roundtrip :
    parseJsonResponse (encodeJsonTagged moversValue) = some moversValue := rfl

/-! ## Lemmas about the tag scanner -/

/-- A pattern starting with a character other than the head of the input is
not a prefix of it. -/
theorem isPre_cons_ne {a c : Char} (as tl : List Char) (h : c ≠ a) :
    isPre (a :: as) (c :: tl) = false := by
  have hb : (a == c) = false := beq_eq_false_iff_ne.mpr fun hh => h hh.symm
  simp [isPre, hb]

/-- A list is a prefix of itself followed by anything. -/
theorem isPre_append_self (p r : List Char) : isPre p (p ++ r) = true := by
  induction p with
  | nil => simp [isPre]
  | cons a as ih => simp [isPre, ih]

/-- When the pattern is a prefix of the input, `findSub` finds it at the
very start. -/
theorem findSub_of_isPre (pat l : List Char) (h : isPre pat l = true) :
    findSub pat l = some ([], l.drop pat.length) := by
  cases l with
  | nil => simp [findSub, h]
  | cons c tl => simp [findSub, h]

/-- The lenient tag scanner ignores characters that cannot start an opening
tag: a prefix with no `<` in it changes nothing (its length is absorbed
into the fuel). -/
theorem extractTagsAux_skip (pat closeT : List Char) :
    ∀ (g : List Char) (fuel : Nat) (rest : List Char), (∀ c ∈ g, c ≠ '<') →
      extractTagsAux ('<' :: pat) closeT (g.length + fuel) (g ++ rest)
        = extractTagsAux ('<' :: pat) closeT fuel rest
  | [], fuel, rest, _ => by simp
  | c :: g, fuel, rest, h => by
    have hc : c ≠ '<' := h c (by simp)
    have hg : ∀ c ∈ g, c ≠ '<' := fun x hx => h x (by simp [hx])
    have hpre : isPre ('<' :: pat) (c :: (g ++ rest)) = false :=
      isPre_cons_ne pat (g ++ rest) hc
    simp only [List.length_cons, List.cons_append]
    have hsucc : g.length + 1 + fuel = (g.length + fuel) + 1 := by omega
    rw [hsucc]
    simp only [extractTagsAux, hpre, Bool.false_eq_true, if_false]
    exact extractTagsAux_skip pat closeT g fuel rest hg

/-- Malformed leading text without any `<` is dropped by the tag
extractor. -/
theorem extractTags_skip (id : String) (g rest : List Char)
    (h : ∀ c ∈ g, c ≠ '<') :
    extractTags id (g ++ rest) = extractTags id rest := by
  unfold extractTags
  have hlen : (g ++ rest).length = g.length + rest.length := List.length_append g rest
  rw [hlen]
  exact extractTagsAux_skip (id.data ++ ['>']) (tagCloseChars id) g rest.length rest h

/-- A `Text` field with no extracted value contributes nothing to the
result mapping. -/
theorem parseTag_text_empty (i d : String) (ex : List (String × String))
    (t : String) (h : extractTags i t.data = []) :
    parseTagResponse (.text i d ex) t = [] := by
  simp [parseTagResponse, h]

mutual
/-- Every value in a tag-convention extraction result is a non-empty JSON
array of extracted strings. -/
theorem mem_parseTagResponse :
    ∀ (s : SchemaNode) (t : String) (kv : String × JsonValue),
      kv ∈ parseTagResponse s t → ∃ v vs, kv.2 = strArr (v :: vs)
  | .text i d ex, t, kv, h => by
    revert h
    cases hv : extractTags i t.data with
    | nil => simp [parseTagResponse, hv]
    | cons v vs =>
      intro h
      simp only [parseTagResponse, hv, List.mem_singleton] at h
      exact ⟨v, vs, by rw [h]⟩
  | .number i d ex, t, kv, h => by
    revert h
    cases hv : extractTags i t.data with
    | nil => simp [parseTagResponse, hv]
    | cons v vs =>
      intro h
      simp only [parseTagResponse, hv, List.mem_singleton] at h
      exact ⟨v, vs, by rw [h]⟩
  | .object i d attrs ex, t, kv, h =>
    mem_parseTagList attrs t kv (by simpa [parseTagResponse] using h)

/-- Every value contributed by a list of attributes is a non-empty JSON
array of extracted strings. -/
theorem mem_parseTagList :
    ∀ (al : SchemaList) (t : String) (kv : String × JsonValue),
      kv ∈ parseTagList al t → ∃ v vs, kv.2 = strArr (v :: vs)
  | .nil, t, kv, h => by simp [parseTagList] at h
  | .cons a tl, t, kv, h => by
    rcases List.mem_append.mp (by simpa [parseTagList] using h) with h1 | h2
    · exact mem_parseTagResponse a t kv h1
    · exact mem_parseTagList tl t kv h2
end

/-- A non-empty extracted list is not the empty JSON array. -/
theorem strArr_cons_ne_empty (v : String) (vs : List String) :
    strArr (v :: vs) ≠ JsonValue.arr JsonList.nil := by
  simp [strArr]

/-- An extracted list is never a bare JSON string. -/
theorem strArr_ne_str (vs : List String) (s : String) :
    strArr vs ≠ JsonValue.str s := by
  simp [strArr]

/-! ## Claims C3, C7, C8, C9 -/

/-- C3: parsing the tag-convention response
`<phone_number>(123)-123-1234</phone_number>` for a schema whose field id
is `phone_number` yields the mapping sending `phone_number` to the
one-element list `["(123)-123-1234"]` — whatever the field's description
and examples are. -/
theorem parse_tagged_phone_number_yields_singleton_list :
    ∀ (d : String) (ex : List (String × String)),
      parseTagResponse (.text "phone_number" d ex)
          "<phone_number>(123)-123-1234</phone_number>"
        = [("phone_number", strArr ["(123)-123-1234"])] :=
  fun _ _ => rfl

/-- C7: the tag-convention parser is total and lenient — text without any
tag opener is dropped without affecting the rest of the extraction; a field
with no well-formed fragment is omitted from the result while the rest of
the extraction still succeeds (shown also on a concrete truncated-tag
response and a concrete two-field schema with one malformed field). -/
theorem malformed_fragments_dropped_silently :
    (∀ (id : String) (g rest : List Char), (∀ c ∈ g, c ≠ '<') →
        extractTags id (g ++ rest) = extractTags id rest)
    ∧ (∀ (i d : String) (ex : List (String × String)) (t : String),
        extractTags i t.data = [] → parseTagResponse (.text i d ex) t = [])
    ∧ parseTagResponse phoneSchemaNoExamples
        "<phone_number>(123)-123-1234</phone_numbe" = []
    ∧ parseTagResponse
        (.object "x" "" (.cons (.text "a" "" []) (.cons (.text "b" "" []) .nil)) [])
        "<a>v</a><b>unclosed" = [("a", strArr ["v"])] :=
  ⟨extractTags_skip, parseTag_text_empty, rfl, rfl⟩

/-- Witness for C7 at concrete inputs: leading noise without `<` does not
change the extraction, and a response with no tags yields an empty
mapping. -/
theorem malformed_fragments_dropped_silently_witness :
    extractTags "phone_number"
        ("noise 123 ".data ++ "<phone_number>x</phone_number>".data)
      = extractTags "phone_number" "<phone_number>x</phone_number>".data
    ∧ parseTagResponse (.text "phone_number" "" []) "no tags at all" = [] :=
  ⟨malformed_fragments_dropped_silently.1 "phone_number" _ _ (by decide),
   malformed_fragments_dropped_silently.2.1 "phone_number" "" [] "no tags at all"
     (by decide)⟩

/-- C8: an extraction result never carries a null or empty filler — a
`Text` field with no extracted value is an absent key, and every value that
is present is neither the empty list nor an empty-string scalar. -/
theorem extraction_result_omits_absent_fields :
    (∀ (i d : String) (ex : List (String × String)) (t : String),
        extractTags i t.data = [] → parseTagResponse (.text i d ex) t = [])
    ∧ (∀ (s : SchemaNode) (t : String) (kv : String × JsonValue),
        kv ∈ parseTagResponse s t →
          kv.2 ≠ JsonValue.arr JsonList.nil ∧ kv.2 ≠ JsonValue.str "") := by
  refine ⟨parseTag_text_empty, fun s t kv h => ?_⟩
  obtain ⟨v, vs, hkv⟩ := mem_parseTagResponse s t kv h
  rw [hkv]
  exact ⟨strArr_cons_ne_empty v vs, strArr_ne_str (v :: vs) ""⟩

/-- Witness for C8 at concrete inputs: a response without the field's tag
gives an absent key, and the value present for a matched tag is not an
empty filler. -/
theorem extraction_result_omits_absent_fields_witness :
    parseTagResponse (.text "phone_number" "" []) "nothing here" = []
    ∧ (("phone_number", strArr ["x"]).2 ≠ JsonValue.arr JsonList.nil
        ∧ ("phone_number", strArr ["x"]).2 ≠ JsonValue.str "") :=
  ⟨extraction_result_omits_absent_fields.1 "phone_number" "" [] "nothing here"
     (by decide),
   extraction_result_omits_absent_fields.2 (.text "phone_number" "" [])
     "<phone_number>x</phone_number>" ("phone_number", strArr ["x"])
     (by decide)⟩

/-- C9: under the tag convention a leaf `Text` field's entry is always a
list of strings keyed by the field id — non-empty, and never a bare
string — even when exactly one value was extracted. -/
theorem text_field_value_is_list_of_strings :
    (∀ (i d : String) (ex : List (String × String)) (t : String),
        parseTagResponse (.text i d ex) t = []
        ∨ ∃ vs : List String, vs ≠ []
            ∧ parseTagResponse (.text i d ex) t = [(i, strArr vs)])
    ∧ (∀ (i d : String) (ex : List (String × String)) (t : String)
          (kv : String × JsonValue), kv ∈ parseTagResponse (.text i d ex) t →
        ∀ s, kv.2 ≠ JsonValue.str s) := by
  constructor
  · intro i d ex t
    cases hv : extractTags i t.data with
    | nil => exact Or.inl (by simp [parseTagResponse, hv])
    | cons v vs =>
      exact Or.inr ⟨v :: vs, by simp, by simp [parseTagResponse, hv]⟩
  · intro i d ex t kv h s
    obtain ⟨v, vs, hkv⟩ := mem_parseTagResponse (.text i d ex) t kv h
    rw [hkv]
    exact strArr_ne_str (v :: vs) s

/-- Witness for C9 at a concrete input with exactly one extracted value:
the stored value is the one-element list, not a bare string. -/
theorem text_field_value_is_list_of_strings_witness :
    (parseTagResponse (.text "phone_number" "" []) "<phone_number>(123)-123-1234</phone_number>" = []
      ∨ ∃ vs : List String, vs ≠ []
          ∧ parseTagResponse (.text "phone_number" "" []) "<phone_number>(123)-123-1234</phone_number>"
              = [("phone_number", strArr vs)])
    ∧ ("phone_number", strArr ["(123)-123-1234"]).2
        ≠ JsonValue.str "(123)-123-1234" :=
  ⟨text_field_value_is_list_of_strings.1 "phone_number" "" []
     "<phone_number>(123)-123-1234</phone_number>",
   text_field_value_is_list_of_strings.2 "phone_number" "" []
     "<phone_number>(123)-123-1234</phone_number>"
     ("phone_number", strArr ["(123)-123-1234"]) (by decide) "(123)-123-1234"⟩

/-! ## Claims C1, C2, C5, C6, C10 -/

/-- C1: a schema carrying exactly one example pair compiles to a prompt
with exactly that one exchange, rendered from the pair's literal input and
(encoded) output text and placed between the instructions and the trailing
placeholder exchange; for a `Text` field the encoded output embeds the
pair's literal output text in the field's tags.  Anchored to the first
notebook's one-example prompt. -/
theorem prompt_contains_single_example_exchange :
    (∀ (enc : Encoder) (p : String) (s : SchemaNode) (ein eenc : String),
        exampleExchanges enc s = [(ein, eenc)] →
          format_as_string enc p s
            = String.intercalate "\n\n" [preambleText, typeBlock s, encInstructions enc]
              ++ "\n\n" ++ ("Input: " ++ ein ++ "\nOutput: " ++ eenc ++ "\n")
              ++ "Input: " ++ p ++ "\nOutput:")
    ∧ (∀ (i d ein eout : String),
        exampleExchanges .tag (.text i d [(ein, eout)])
          = [(ein, "<" ++ i ++ ">" ++ eout ++ "</" ++ i ++ ">")])
    ∧ exampleExchanges .tag phoneSchemaOneExample
        = [("Someone called me from 1231231234",
            "<phone_number>(123)-123-1234</phone_number>")]
    ∧ format_as_string .tag "[user input goes here]" phoneSchemaOneExample
        = promptOneExampleLiteral := by
  refine ⟨fun enc p s ein eenc h => ?_, fun i d ein eout => rfl, rfl,
    format_matches_notebook_oneExample⟩
  unfold format_as_string
  rw [h]
  exact rfl

/-- Witness for C1 at the notebook's one-example schema: the compiled
prompt is the header followed by the example's literal exchange and the
placeholder exchange. -/
theorem prompt_contains_single_example_exchange_witness :
    format_as_string .tag "[user input goes here]" phoneSchemaOneExample
      = String.intercalate "\n\n"
          [preambleText, typeBlock phoneSchemaOneExample, encInstructions .tag]
        ++ "\n\n"
        ++ ("Input: " ++ "Someone called me from 1231231234" ++ "\nOutput: "
            ++ "<phone_number>(123)-123-1234</phone_number>" ++ "\n")
        ++ "Input: " ++ "[user input goes here]" ++ "\nOutput:" :=
  prompt_contains_single_example_exchange.1 .tag "[user input goes here]"
    phoneSchemaOneExample "Someone called me from 1231231234"
    "<phone_number>(123)-123-1234</phone_number>" rfl

/-- C2: a schema with no examples compiles to a prompt with no example
exchange block — the text after the instructions is exactly the trailing
placeholder exchange — and in the first notebook's no-example prompt the
only lines starting with `Input`/`Output` are the trailing placeholder
pair. -/
theorem prompt_without_examples_has_no_exchange :
    (∀ (enc : Encoder) (p : String) (s : SchemaNode),
        exampleExchanges enc s = [] →
          format_as_string enc p s
            = String.intercalate "\n\n" [preambleText, typeBlock s, encInstructions enc]
              ++ "\n\n" ++ "Input: " ++ p ++ "\nOutput:")
    ∧ exampleExchanges .tag phoneSchemaNoExamples = []
    ∧ format_as_string .tag "[user input goes here]" phoneSchemaNoExamples
        = String.intercalate "\n" promptNoExamplesLines
    ∧ promptNoExamplesLines.filter lineIsIO
        = ["Input: [user input goes here]", "Output:"] := by
  refine ⟨fun enc p s h => ?_, rfl, format_matches_notebook_noExamples, by decide⟩
  unfold format_as_string
  rw [h]
  rw [show String.join (List.map renderExchange ([] : List (String × String))) = ""
    from rfl]
  rw [String.append_empty]

/-- Witness for C2 at the notebook's no-example schema: the compiled
prompt is the header followed directly by the placeholder exchange. -/
theorem prompt_without_examples_has_no_exchange_witness :
    format_as_string .tag "[user input goes here]" phoneSchemaNoExamples
      = String.intercalate "\n\n"
          [preambleText, typeBlock phoneSchemaNoExamples, encInstructions .tag]
        ++ "\n\n" ++ "Input: " ++ "[user input goes here]" ++ "\nOutput:" :=
  prompt_without_examples_has_no_exchange.1 .tag "[user input goes here]"
    phoneSchemaNoExamples rfl

/-- C5: every compiled prompt consists, in order, of the instruction
preamble, the type block (each leaf field's description rendered inline as
a `//` comment on the field's line, an object's description on its opening
line), the output-convention instructions, the example exchanges, and the
trailing placeholder exchange.  Anchored to both notebooks' prompts. -/
theorem prompt_sections_in_order :
    (∀ (enc : Encoder) (p : String) (s : SchemaNode),
        format_as_string enc p s
          = preambleText ++ "\n\n" ++ typeBlock s ++ "\n\n" ++ encInstructions enc
            ++ "\n\n" ++ String.join ((exampleExchanges enc s).map renderExchange)
            ++ "Input: " ++ p ++ "\nOutput:")
    ∧ (∀ (depth : Nat) (i d : String) (exs : List (String × String)),
        nodeLines depth (.text i d exs)
            = [indentStr depth ++ i ++ ": string[] // " ++ d]
          ∧ nodeLines depth (.number i d exs)
              = [indentStr depth ++ i ++ ": number[] // " ++ d])
    ∧ (∀ (depth : Nat) (i d : String) (attrs : SchemaList)
          (exs : List (String × JsonValue)),
        ∃ body : List String,
          nodeLines depth (.object i d attrs exs)
            = (indentStr depth ++ i ++ ": \x7b // " ++ d) :: body)
    ∧ format_as_string .tag "[user input goes here]" phoneSchemaOneExample
        = promptOneExampleLiteral
    ∧ format_as_string .json "[user_input]" untypedSchema = promptUntypedLiteral :=
  ⟨fun _ _ _ => rfl, fun _ _ _ _ => ⟨rfl, rfl⟩, fun _ _ _ _ _ => ⟨_, rfl⟩,
   format_matches_notebook_oneExample, format_matches_notebook_untyped⟩

/-- C6: the prompt compiler is a pure function of the pair
(schema, placeholder) — equal inputs give character-for-character equal
prompt text. -/
theorem format_as_string_deterministic :
    ∀ (enc : Encoder) (p1 p2 : String) (s1 s2 : SchemaNode),
      p1 = p2 → s1 = s2 →
        format_as_string enc p1 s1 = format_as_string enc p2 s2
        ∧ (format_as_string enc p1 s1).data = (format_as_string enc p2 s2).data := by
  intro enc p1 p2 s1 s2 hp hs
  subst hp
  subst hs
  exact ⟨rfl, rfl⟩

/-- Witness for C6 at the notebook's input: two invocations with the same
schema and placeholder give identical text. -/
theorem format_as_string_deterministic_witness :
    format_as_string .tag "[user input goes here]" phoneSchemaNoExamples
      = format_as_string .tag "[user input goes here]" phoneSchemaNoExamples
    ∧ (format_as_string .tag "[user input goes here]" phoneSchemaNoExamples).data
        = (format_as_string .tag "[user input goes here]" phoneSchemaNoExamples).data :=
  format_as_string_deterministic .tag "[user input goes here]"
    "[user input goes here]" phoneSchemaNoExamples phoneSchemaNoExamples rfl rfl

/-- C10: an `Object` schema with an empty attribute list still compiles to
a well-formed prompt — its type block is the object id with an empty brace
body — and every compiled prompt, typed or untyped, opens with the same
fixed instruction preamble.  Anchored to the untyped-object notebook's
prompt. -/
theorem empty_object_schema_prompt_wellformed :
    (∀ (exs : List (String × JsonValue)),
        typeBlock (.object "information" "" .nil exs)
          = "```TypeScript\n\ninformation: \x7b // \n\x7d\n```\n")
    ∧ (∀ (enc : Encoder) (p : String) (s : SchemaNode),
        ∃ r : String, format_as_string enc p s = preambleText ++ r)
    ∧ format_as_string .json "[user_input]" untypedSchema
        = String.intercalate "\n" promptUntypedLines := by
  refine ⟨fun exs => rfl, fun enc p s => ?_, format_matches_notebook_untyped⟩
  refine ⟨"\n\n" ++ typeBlock s ++ "\n\n" ++ encInstructions enc ++ "\n\n"
    ++ String.join ((exampleExchanges enc s).map renderExchange)
    ++ "Input: " ++ p ++ "\nOutput:", ?_⟩
  apply eq_of_data_eq
  rw [show format_as_string enc p s
      = preambleText ++ "\n\n" ++ typeBlock s ++ "\n\n" ++ encInstructions enc
        ++ "\n\n" ++ String.join ((exampleExchanges enc s).map renderExchange)
        ++ "Input: " ++ p ++ "\nOutput:" from rfl]
  simp only [String.data_append, List.append_assoc]

/-! ## Round trip through the JSON convention: digit lemmas -/

/-- The decimal digit characters produced by the serializer are digits and
carry the expected value. -/
theorem digitChar_spec (m : Nat) (h : m < 10) :
    isDigitCh (Char.ofNat (48 + m)) = true ∧ (Char.ofNat (48 + m)).toNat = 48 + m := by
  interval_cases m <;> exact ⟨by decide, by decide⟩

/-- A digit character is distinct from any non-digit character. -/
theorem ne_of_isDigit (c x : Char) (h : isDigitCh c = true)
    (hx : isDigitCh x = false) : c ≠ x := by
  intro he
  rw [he, hx] at h
  exact Bool.false_ne_true h

/-- The fuel argument of `digitsRevAux` is irrelevant once it dominates the
number. -/
theorem digitsRevAux_congr :
    ∀ (n f g : Nat), n ≤ f → n ≤ g → digitsRevAux f n = digitsRevAux g n := by
  intro n
  induction n using Nat.strong_induction_on with
  | _ n ih =>
    intro f g hf hg
    match n, f, g with
    | 0, f, g => cases f <;> cases g <;> rfl
    | m + 1, f + 1, g + 1 =>
      show Char.ofNat (48 + (m + 1) % 10) :: digitsRevAux f ((m + 1) / 10)
          = Char.ofNat (48 + (m + 1) % 10) :: digitsRevAux g ((m + 1) / 10)
      have hlt : (m + 1) / 10 < m + 1 := Nat.div_lt_self (Nat.succ_pos m) (by omega)
      rw [ih ((m + 1) / 10) hlt f g (by omega) (by omega)]

/-- Unfolding equation of `digitsRev` on a positive number. -/
theorem digitsRev_succ (n : Nat) (h : 0 < n) :
    digitsRev n = Char.ofNat (48 + n % 10) :: digitsRev (n / 10) := by
  match n, h with
  | m + 1, _ =>
    show digitsRevAux (m + 1) (m + 1) = _
    have hlt : (m + 1) / 10 < m + 1 := Nat.div_lt_self (Nat.succ_pos m) (by omega)
    show Char.ofNat (48 + (m + 1) % 10) :: digitsRevAux m ((m + 1) / 10) = _
    rw [show digitsRev ((m + 1) / 10) = digitsRevAux ((m + 1) / 10) ((m + 1) / 10)
      from rfl]
    rw [digitsRevAux_congr ((m + 1) / 10) m ((m + 1) / 10) (by omega) (by omega)]

/-- Every character of `digitsRev` is a decimal digit. -/
theorem digitsRev_digits :
    ∀ (n : Nat) (c : Char), c ∈ digitsRev n → isDigitCh c = true := by
  intro n
  induction n using Nat.strong_induction_on with
  | _ n ih =>
    intro c hc
    match n with
    | 0 => simp [digitsRev, digitsRevAux] at hc
    | m + 1 =>
      rw [digitsRev_succ (m + 1) (Nat.succ_pos m)] at hc
      rcases List.mem_cons.mp hc with h1 | h2
      · rw [h1]
        exact (digitChar_spec ((m + 1) % 10) (Nat.mod_lt _ (by omega))).1
      · exact ih ((m + 1) / 10) (Nat.div_lt_self (Nat.succ_pos m) (by omega)) c h2

/-- `digitsRev` of a positive number is non-empty. -/
theorem digitsRev_ne_nil (n : Nat) (h : 0 < n) : digitsRev n ≠ [] := by
  rw [digitsRev_succ n h]
  exact List.cons_ne_nil _ _

/-- The digit run parser stops at a non-digit. -/
theorem parseDigitsAux_stop (acc : Nat) (l : List Char)
    (h : notDigitStart l = true) : parseDigitsAux acc l = (acc, l) := by
  cases l with
  | nil => rfl
  | cons c tl =>
    have hc : isDigitCh c = false := by
      simpa [notDigitStart] using h
    simp [parseDigitsAux, hc]

/-- Running the digit parser over the digits of `n` (most significant
first) shifts the accumulator by the corresponding power of ten and adds
`n`. -/
theorem parseDigitsAux_run :
    ∀ (n acc : Nat) (rest : List Char),
      parseDigitsAux acc ((digitsRev n).reverse ++ rest)
        = parseDigitsAux (acc * 10 ^ (digitsRev n).length + n) rest := by
  intro n
  induction n using Nat.strong_induction_on with
  | _ n ih =>
    intro acc rest
    match n with
    | 0 => simp [digitsRev, digitsRevAux]
    | m + 1 =>
      have hpos : 0 < m + 1 := Nat.succ_pos m
      have hlt : (m + 1) / 10 < m + 1 := Nat.div_lt_self hpos (by omega)
      have hdig := digitChar_spec ((m + 1) % 10) (Nat.mod_lt _ (by omega))
      rw [digitsRev_succ (m + 1) hpos]
      rw [List.reverse_cons, List.append_assoc]
      rw [ih ((m + 1) / 10) hlt acc ([Char.ofNat (48 + (m + 1) % 10)] ++ rest)]
      have hstep :
          parseDigitsAux (acc * 10 ^ (digitsRev ((m + 1) / 10)).length + (m + 1) / 10)
              ([Char.ofNat (48 + (m + 1) % 10)] ++ rest)
            = parseDigitsAux
                (10 * (acc * 10 ^ (digitsRev ((m + 1) / 10)).length + (m + 1) / 10)
                  + (m + 1) % 10) rest := by
        simp [parseDigitsAux, hdig.1, hdig.2]
      rw [hstep]
      congr 1
      rw [List.length_cons, pow_succ]
      have hdm : 10 * ((m + 1) / 10) + (m + 1) % 10 = m + 1 := Nat.div_add_mod _ 10
      set P := 10 ^ (digitsRev ((m + 1) / 10)).length
      calc 10 * (acc * P + (m + 1) / 10) + (m + 1) % 10
          = acc * (P * 10) + (10 * ((m + 1) / 10) + (m + 1) % 10) := by ring
        _ = acc * (P * 10) + (m + 1) := by rw [hdm]

/-- Every character of `natDigits` is a decimal digit. -/
theorem natDigits_digits (n : Nat) :
    ∀ c ∈ natDigits n, isDigitCh c = true := by
  intro c hc
  unfold natDigits at hc
  split at hc
  · rcases List.mem_singleton.mp hc with rfl
    decide
  · exact digitsRev_digits n c (List.mem_reverse.mp hc)

/-- `natDigits` is never empty. -/
theorem natDigits_ne_nil (n : Nat) : natDigits n ≠ [] := by
  unfold natDigits
  split
  · exact List.cons_ne_nil _ _
  · next h =>
    intro hrev
    exact digitsRev_ne_nil n (Nat.pos_of_ne_zero h) (List.reverse_eq_nil_iff.mp hrev)

/-- Running the digit parser over `natDigits n` recovers `n` whenever the
rest of the input does not start with another digit. -/
theorem parseDigits_natDigits (n : Nat) (rest : List Char)
    (h : notDigitStart rest = true) :
    parseDigitsAux 0 (natDigits n ++ rest) = (n, rest) := by
  unfold natDigits
  split
  · next h0 =>
    subst h0
    show parseDigitsAux 0 ('0' :: rest) = (0, rest)
    have hv : 10 * 0 + (('0' : Char).toNat - 48) = 0 := by decide
    rw [parseDigitsAux, if_pos (by decide : isDigitCh '0' = true), hv]
    exact parseDigitsAux_stop 0 rest h
  · rw [parseDigitsAux_run n 0 rest]
    simp only [Nat.zero_mul, Nat.zero_add]
    exact parseDigitsAux_stop n rest h

/-- Consuming the leading digit and then the rest of `natDigits n` also
recovers `n`. -/
theorem parseDigits_natDigits_cons (n : Nat) (d : Char) (ds rest : List Char)
    (hds : natDigits n = d :: ds) (h : notDigitStart rest = true) :
    parseDigitsAux (d.toNat - 48) (ds ++ rest) = (n, rest) := by
  have hd : isDigitCh d = true :=
    natDigits_digits n d (by rw [hds]; exact List.mem_cons_self _ _)
  have h0 := parseDigits_natDigits n rest h
  rw [hds] at h0
  simpa [parseDigitsAux, hd] using h0

/-- `parseVal` on input starting with a digit parses a number. -/
theorem parseVal_digit_step (fuel : Nat) (d : Char) (tl : List Char)
    (h : isDigitCh d = true) :
    parseVal (fuel + 1) (d :: tl)
      = some (.num ((parseDigitsAux (d.toNat - 48) tl).1 : Int),
              (parseDigitsAux (d.toNat - 48) tl).2) := by
  have h1 : d ≠ '"' := ne_of_isDigit d '"' h (by decide)
  have h2 : d ≠ '[' := ne_of_isDigit d '[' h (by decide)
  have h3 : d ≠ '\x7b' := ne_of_isDigit d '\x7b' h (by decide)
  have h4 : d ≠ '-' := ne_of_isDigit d '-' h (by decide)
  simp [parseVal, h1, h2, h3, h4, h]

/-- `parseVal` on input starting with a minus sign and a digit parses a
negated number. -/
theorem parseVal_neg_step (fuel : Nat) (d : Char) (tl : List Char)
    (h : isDigitCh d = true) :
    parseVal (fuel + 1) ('-' :: d :: tl)
      = some (.num (-((parseDigitsAux (d.toNat - 48) tl).1 : Int)),
              (parseDigitsAux (d.toNat - 48) tl).2) := by
  have h1 : ¬ (('-' : Char) = '"') := by decide
  have h2 : ¬ (('-' : Char) = '[') := by decide
  have h3 : ¬ (('-' : Char) = '\x7b') := by decide
  simp [parseVal, h1, h2, h3, h]

/-- `parseVal` parses back the serializer's decimal notation of any
integer, leaving the rest of the input intact. -/
theorem parseVal_num (k : Int) (fuel : Nat) (rest : List Char)
    (h : notDigitStart rest = true) :
    parseVal (fuel + 1) (intChars k ++ rest) = some (.num k, rest) := by
  unfold intChars
  split
  · next hk =>
    obtain ⟨d, ds, hds⟩ := List.exists_cons_of_ne_nil (natDigits_ne_nil (-k).toNat)
    have hd : isDigitCh d = true :=
      natDigits_digits _ d (by rw [hds]; exact List.mem_cons_self _ _)
    have hrun := parseDigits_natDigits_cons (-k).toNat d ds rest hds h
    rw [show ('-' :: natDigits (-k).toNat) ++ rest = '-' :: d :: (ds ++ rest) by
      rw [hds]; rfl]
    rw [parseVal_neg_step fuel d (ds ++ rest) hd, hrun]
    have hcast : (((-k).toNat : Int)) = -k := Int.toNat_of_nonneg (by omega)
    simp [hcast]
  · next hk =>
    obtain ⟨d, ds, hds⟩ := List.exists_cons_of_ne_nil (natDigits_ne_nil k.toNat)
    have hd : isDigitCh d = true :=
      natDigits_digits _ d (by rw [hds]; exact List.mem_cons_self _ _)
    have hrun := parseDigits_natDigits_cons k.toNat d ds rest hds h
    rw [show natDigits k.toNat ++ rest = d :: (ds ++ rest) by rw [hds]; rfl]
    rw [parseVal_digit_step fuel d (ds ++ rest) hd, hrun]
    have hcast : ((k.toNat : Int)) = k := Int.toNat_of_nonneg (by omega)
    simp [hcast]

/-- The string-body parser undoes the serializer's escaping, for every
string. -/
theorem parseStringChars_esc : ∀ (s rest : List Char),
    parseStringChars (escChars s ++ '"' :: rest) = some (s, rest)
  | [], rest => by
    show parseStringChars ('"' :: rest) = some ([], rest)
    conv_lhs => unfold parseStringChars
    rw [if_neg (by decide : ¬ (('"' : Char) = '\\')), if_pos rfl]
  | c :: tl, rest => by
    simp only [escChars]
    by_cases hc : c = '"' ∨ c = '\\'
    · rw [if_pos hc]
      show parseStringChars ('\\' :: c :: (escChars tl ++ '"' :: rest)) = _
      rw [show parseStringChars ('\\' :: c :: (escChars tl ++ '"' :: rest))
          = (parseStringChars (escChars tl ++ '"' :: rest)).map
              (fun p => (c :: p.1, p.2)) from rfl]
      rw [parseStringChars_esc tl rest]
      rfl
    · rw [if_neg hc]
      push_neg at hc
      show parseStringChars (c :: (escChars tl ++ '"' :: rest)) = _
      conv_lhs => unfold parseStringChars
      rw [if_neg hc.2, if_neg hc.1]
      rw [parseStringChars_esc tl rest]
      rfl

/-- Skipping spaces passes over a space. -/
theorem skipSpaces_space (l : List Char) : skipSpaces (' ' :: l) = skipSpaces l := by
  simp [skipSpaces]

/-- Skipping spaces stops at a non-space. -/
theorem skipSpaces_of_head_ne (c : Char) (l : List Char) (h : c ≠ ' ') :
    skipSpaces (c :: l) = c :: l := by
  simp [skipSpaces, h]

/-- The serialization of a value starts with a character that is not a
space, a closing bracket or a closing brace. -/
theorem charsVal_head (v : JsonValue) :
    ∃ c cs, charsVal v = c :: cs ∧ c ≠ ' ' ∧ c ≠ ']' ∧ c ≠ '\x7d' := by
  cases v with
  | str s => exact ⟨'"', _, rfl, by decide, by decide, by decide⟩
  | num k =>
    show ∃ c cs, intChars k = c :: cs ∧ _
    unfold intChars
    split
    · exact ⟨'-', _, rfl, by decide, by decide, by decide⟩
    · obtain ⟨d, ds, hds⟩ := List.exists_cons_of_ne_nil (natDigits_ne_nil k.toNat)
      have hd : isDigitCh d = true :=
        natDigits_digits _ d (by rw [hds]; exact List.mem_cons_self _ _)
      exact ⟨d, ds, hds, ne_of_isDigit d ' ' hd (by decide),
        ne_of_isDigit d ']' hd (by decide), ne_of_isDigit d '\x7d' hd (by decide)⟩
  | arr xs => exact ⟨'[', _, rfl, by decide, by decide, by decide⟩
  | obj ms => exact ⟨'\x7b', _, rfl, by decide, by decide, by decide⟩

/-- The serialization of a non-empty array body starts like its first
item. -/
theorem charsItems_cons_head (w : JsonValue) (tl : JsonList) :
    ∃ c cs, charsItems (.cons w tl) = c :: cs ∧ c ≠ ' ' ∧ c ≠ ']' ∧ c ≠ '\x7d' := by
  obtain ⟨c, cs, hv, h1, h2, h3⟩ := charsVal_head w
  cases tl with
  | nil => exact ⟨c, cs, hv, h1, h2, h3⟩
  | cons w2 tl2 =>
    refine ⟨c, cs ++ ',' :: ' ' :: charsItems (.cons w2 tl2), ?_, h1, h2, h3⟩
    show charsVal w ++ ',' :: ' ' :: charsItems (.cons w2 tl2) = _
    rw [hv]
    rfl

/-- The serialization of a non-empty object body starts with a quote. -/
theorem charsMembers_cons_head (k : String) (w : JsonValue) (tl : JsonObj) :
    ∃ cs, charsMembers (.cons k w tl) = '"' :: cs := by
  cases tl <;> exact ⟨_, rfl⟩

/-- The serializer's notation of an integer is never empty. -/
theorem intChars_ne_nil (k : Int) : intChars k ≠ [] := by
  unfold intChars
  split
  · exact List.cons_ne_nil _ _
  · exact natDigits_ne_nil _

/-- `parseVal` at an opening bracket not immediately closed parses the
items. -/
theorem parseVal_arr_step (fuel : Nat) (t : Char) (r : List Char) (h : t ≠ ']') :
    parseVal (fuel + 1) ('[' :: t :: r)
      = (parseItems fuel (t :: r)).map fun p => (.arr p.1, p.2) := by
  have h1 : ¬ (('[' : Char) = '"') := by decide
  simp [parseVal, h1, h]

/-- `parseVal` at an opening brace not immediately closed parses the
members. -/
theorem parseVal_obj_step (fuel : Nat) (t : Char) (r : List Char) (h : t ≠ '\x7d') :
    parseVal (fuel + 1) ('\x7b' :: t :: r)
      = (parseMembers fuel (t :: r)).map fun p => (.obj p.1, p.2) := by
  have h1 : ¬ (('\x7b' : Char) = '"') := by decide
  have h2 : ¬ (('\x7b' : Char) = '[') := by decide
  simp [parseVal, h1, h2, h]

/-- `parseItems` closes a one-item tail at the closing bracket. -/
theorem parseItems_cons_close (fuel : Nat) (l : List Char) (v : JsonValue)
    (r2 : List Char) (hv : parseVal fuel l = some (v, ']' :: r2)) :
    parseItems (fuel + 1) l = some (.cons v .nil, r2) := by
  simp [parseItems, hv]

/-- `parseItems` continues past a comma into the remaining items. -/
theorem parseItems_cons_comma (fuel : Nat) (l : List Char) (v : JsonValue)
    (r2 : List Char) (hv : parseVal fuel l = some (v, ',' :: r2)) :
    parseItems (fuel + 1) l
      = match parseItems fuel (skipSpaces r2) with
        | some (xs, r3) => some (.cons v xs, r3)
        | none => none := by
  have h1 : ¬ ((',' : Char) = ']') := by decide
  simp [parseItems, hv, h1]

/-- `parseMembers` closes a one-member tail at the closing brace. -/
theorem parseMembers_close (fuel : Nat) (tl k r2 : List Char) (v : JsonValue)
    (r4 : List Char) (hk : parseStringChars tl = some (k, ':' :: r2))
    (hv : parseVal fuel (skipSpaces r2) = some (v, '\x7d' :: r4)) :
    parseMembers (fuel + 1) ('"' :: tl) = some (.cons (String.mk k) v .nil, r4) := by
  simp [parseMembers, hk, hv]

/-- `parseMembers` continues past a comma into the remaining members. -/
theorem parseMembers_comma (fuel : Nat) (tl k r2 : List Char) (v : JsonValue)
    (r4 : List Char) (hk : parseStringChars tl = some (k, ':' :: r2))
    (hv : parseVal fuel (skipSpaces r2) = some (v, ',' :: r4)) :
    parseMembers (fuel + 1) ('"' :: tl)
      = match parseMembers fuel (skipSpaces r4) with
        | some (ms, r5) => some (.cons (String.mk k) v ms, r5)
        | none => none := by
  have h1 : ¬ ((',' : Char) = '\x7d') := by decide
  simp [parseMembers, hk, hv, h1]

/-- Skipping spaces leaves a serialized value in place (it never starts
with a space). -/
theorem skipSpaces_charsVal (w : JsonValue) (z : List Char) :
    skipSpaces (charsVal w ++ z) = charsVal w ++ z := by
  obtain ⟨c, cs, hcv, hcsp, _, _⟩ := charsVal_head w
  rw [show charsVal w ++ z = c :: (cs ++ z) from by rw [hcv]; rfl]
  exact skipSpaces_of_head_ne c _ hcsp

/-- Skipping spaces leaves a serialized non-empty array body in place. -/
theorem skipSpaces_charsItems (w : JsonValue) (tl : JsonList) (z : List Char) :
    skipSpaces (charsItems (.cons w tl) ++ z) = charsItems (.cons w tl) ++ z := by
  obtain ⟨c, cs, hi, hcsp, _, _⟩ := charsItems_cons_head w tl
  rw [show charsItems (.cons w tl) ++ z = c :: (cs ++ z) from by rw [hi]; rfl]
  exact skipSpaces_of_head_ne c _ hcsp

/-- Skipping spaces leaves a serialized non-empty object body in place. -/
theorem skipSpaces_charsMembers (k : String) (w : JsonValue) (tl : JsonObj)
    (z : List Char) :
    skipSpaces (charsMembers (.cons k w tl) ++ z) = charsMembers (.cons k w tl) ++ z := by
  obtain ⟨cs, hm⟩ := charsMembers_cons_head k w tl
  rw [show charsMembers (.cons k w tl) ++ z = '"' :: (cs ++ z) from by rw [hm]; rfl]
  exact skipSpaces_of_head_ne '"' _ (by decide)

mutual
/-- Round trip: parsing the serialization of any JSON value (with any
sufficient fuel) returns the value and leaves the rest of the input,
provided the rest does not start with a digit. -/
theorem parseVal_chars :
    ∀ (v : JsonValue) (fuel : Nat) (rest : List Char),
      (charsVal v).length ≤ fuel → notDigitStart rest = true →
      parseVal fuel (charsVal v ++ rest) = some (v, rest)
  | .str s, fuel, rest, hlen, _ => by
    have he : (charsVal (.str s)).length = (escChars s.data ++ ['"']).length + 1 := rfl
    obtain ⟨f, rfl⟩ : ∃ f, fuel = f + 1 := ⟨fuel - 1, by omega⟩
    show parseVal (f + 1) ('"' :: ((escChars s.data ++ ['"']) ++ rest))
        = some (.str s, rest)
    rw [show (escChars s.data ++ ['"']) ++ rest = escChars s.data ++ '"' :: rest from by
      rw [List.append_assoc]; rfl]
    rw [show parseVal (f + 1) ('"' :: (escChars s.data ++ '"' :: rest))
        = (parseStringChars (escChars s.data ++ '"' :: rest)).map
            (fun p => (JsonValue.str (String.mk p.1), p.2)) from rfl]
    rw [parseStringChars_esc s.data rest]
    rfl
  | .num k, fuel, rest, hlen, hnd => by
    have hpos : 0 < (intChars k).length := List.length_pos.mpr (intChars_ne_nil k)
    have he : (charsVal (.num k)).length = (intChars k).length := rfl
    obtain ⟨f, rfl⟩ : ∃ f, fuel = f + 1 := ⟨fuel - 1, by omega⟩
    exact parseVal_num k f rest hnd
  | .arr .nil, fuel, rest, hlen, _ => by
    have he : (charsVal (.arr .nil)).length = 2 := rfl
    obtain ⟨f, rfl⟩ : ∃ f, fuel = f + 1 := ⟨fuel - 1, by omega⟩
    show parseVal (f + 1) ('[' :: ']' :: rest) = some (.arr .nil, rest)
    rfl
  | .arr (.cons w tl), fuel, rest, hlen, _ => by
    have he : (charsVal (.arr (.cons w tl))).length
        = (charsItems (.cons w tl)).length + 2 := by
      show ('[' :: (charsItems (.cons w tl) ++ [']'])).length = _
      simp only [List.length_append, List.length_cons, List.length_nil]
    obtain ⟨f, rfl⟩ : ∃ f, fuel = f + 1 := ⟨fuel - 1, by omega⟩
    obtain ⟨c, cs, hi, _, hbr, _⟩ := charsItems_cons_head w tl
    show parseVal (f + 1) ('[' :: ((charsItems (.cons w tl) ++ [']']) ++ rest))
        = some (.arr (.cons w tl), rest)
    rw [List.append_assoc]
    rw [show ([']'] ++ rest : List Char) = ']' :: rest from rfl]
    rw [show charsItems (.cons w tl) ++ ']' :: rest = c :: (cs ++ ']' :: rest) from by
      rw [hi]; rfl]
    rw [parseVal_arr_step f c (cs ++ ']' :: rest) hbr]
    rw [show (c :: (cs ++ ']' :: rest) : List Char)
        = charsItems (.cons w tl) ++ ']' :: rest from by rw [hi]; rfl]
    rw [parseItems_chars w tl f rest (by omega)]
    rfl
  | .obj .nil, fuel, rest, hlen, _ => by
    have he : (charsVal (.obj .nil)).length = 2 := rfl
    obtain ⟨f, rfl⟩ : ∃ f, fuel = f + 1 := ⟨fuel - 1, by omega⟩
    show parseVal (f + 1) ('\x7b' :: '\x7d' :: rest) = some (.obj .nil, rest)
    rfl
  | .obj (.cons k w tl), fuel, rest, hlen, _ => by
    have he : (charsVal (.obj (.cons k w tl))).length
        = (charsMembers (.cons k w tl)).length + 2 := by
      show ('\x7b' :: (charsMembers (.cons k w tl) ++ ['\x7d'])).length = _
      simp only [List.length_append, List.length_cons, List.length_nil]
    obtain ⟨f, rfl⟩ : ∃ f, fuel = f + 1 := ⟨fuel - 1, by omega⟩
    obtain ⟨cs, hm⟩ := charsMembers_cons_head k w tl
    show parseVal (f + 1)
        ('\x7b' :: ((charsMembers (.cons k w tl) ++ ['\x7d']) ++ rest))
        = some (.obj (.cons k w tl), rest)
    rw [List.append_assoc]
    rw [show (['\x7d'] ++ rest : List Char) = '\x7d' :: rest from rfl]
    rw [show charsMembers (.cons k w tl) ++ '\x7d' :: rest
        = '"' :: (cs ++ '\x7d' :: rest) from by rw [hm]; rfl]
    rw [parseVal_obj_step f '"' (cs ++ '\x7d' :: rest) (by decide)]
    rw [show ('"' :: (cs ++ '\x7d' :: rest) : List Char)
        = charsMembers (.cons k w tl) ++ '\x7d' :: rest from by rw [hm]; rfl]
    rw [parseMembers_chars k w tl f rest (by omega)]
    rfl
termination_by v _ _ _ _ => sizeOf v

/-- Round trip for a non-empty array body followed by the closing
bracket. -/
theorem parseItems_chars :
    ∀ (w : JsonValue) (tl : JsonList) (fuel : Nat) (rest : List Char),
      (charsItems (.cons w tl)).length + 1 ≤ fuel →
      parseItems fuel (charsItems (.cons w tl) ++ ']' :: rest)
        = some (.cons w tl, rest)
  | w, tl, fuel, rest, hlen => by
    obtain ⟨f, rfl⟩ : ∃ f, fuel = f + 1 := ⟨fuel - 1, by omega⟩
    cases tl with
    | nil =>
      have he : (charsItems (.cons w .nil)).length = (charsVal w).length := rfl
      rw [show charsItems (.cons w .nil) = charsVal w from rfl]
      exact parseItems_cons_close f _ w rest
        (parseVal_chars w f (']' :: rest) (by omega) rfl)
    | cons w2 tl2 =>
      have he : (charsItems (.cons w (.cons w2 tl2))).length
          = (charsVal w).length + 2 + (charsItems (.cons w2 tl2)).length := by
        show (charsVal w ++ ',' :: ' ' :: charsItems (.cons w2 tl2)).length = _
        simp only [List.length_append, List.length_cons]
        omega
      rw [show charsItems (.cons w (.cons w2 tl2))
          = charsVal w ++ ',' :: ' ' :: charsItems (.cons w2 tl2) from rfl]
      rw [List.append_assoc]
      rw [show ((',' :: ' ' :: charsItems (.cons w2 tl2)) ++ ']' :: rest : List Char)
          = ',' :: ' ' :: (charsItems (.cons w2 tl2) ++ ']' :: rest) from rfl]
      rw [parseItems_cons_comma f _ w
        (' ' :: (charsItems (.cons w2 tl2) ++ ']' :: rest))
        (parseVal_chars w f _ (by omega) rfl)]
      rw [skipSpaces_space]
      rw [skipSpaces_charsItems w2 tl2 (']' :: rest)]
      rw [parseItems_chars w2 tl2 f rest (by omega)]
termination_by w tl _ _ _ => 1 + sizeOf w + sizeOf tl

/-- Round trip for a non-empty object body followed by the closing
brace. -/
theorem parseMembers_chars :
    ∀ (k : String) (w : JsonValue) (tl : JsonObj) (fuel : Nat) (rest : List Char),
      (charsMembers (.cons k w tl)).length + 1 ≤ fuel →
      parseMembers fuel (charsMembers (.cons k w tl) ++ '\x7d' :: rest)
        = some (.cons k w tl, rest)
  | k, w, tl, fuel, rest, hlen => by
    obtain ⟨f, rfl⟩ : ∃ f, fuel = f + 1 := ⟨fuel - 1, by omega⟩
    cases tl with
    | nil =>
      have he : (charsMembers (.cons k w .nil)).length
          = (escChars k.data).length + (charsVal w).length + 4 := by
        show ('"' :: (escChars k.data ++ '"' :: ':' :: ' ' :: charsVal w)).length = _
        simp only [List.length_append, List.length_cons]
        omega
      rw [show charsMembers (.cons k w .nil)
          = '"' :: (escChars k.data ++ '"' :: ':' :: ' ' :: charsVal w) from rfl]
      rw [show ('"' :: (escChars k.data ++ '"' :: ':' :: ' ' :: charsVal w))
            ++ '\x7d' :: rest
          = '"' :: (escChars k.data
              ++ '"' :: (':' :: ' ' :: (charsVal w ++ '\x7d' :: rest))) from by
        simp [List.cons_append, List.append_assoc]]
      have hv : parseVal f (skipSpaces (' ' :: (charsVal w ++ '\x7d' :: rest)))
          = some (w, '\x7d' :: rest) := by
        rw [skipSpaces_space, skipSpaces_charsVal w ('\x7d' :: rest)]
        exact parseVal_chars w f ('\x7d' :: rest) (by omega) rfl
      rw [parseMembers_close f _ k.data (' ' :: (charsVal w ++ '\x7d' :: rest)) w rest
        (parseStringChars_esc k.data _) hv]
    | cons k2 w2 tl2 =>
      have he : (charsMembers (.cons k w (.cons k2 w2 tl2))).length
          = (escChars k.data).length + (charsVal w).length
            + (charsMembers (.cons k2 w2 tl2)).length + 6 := by
        show (('"' :: (escChars k.data ++ '"' :: ':' :: ' ' :: charsVal w))
            ++ ',' :: ' ' :: charsMembers (.cons k2 w2 tl2)).length = _
        simp only [List.length_append, List.length_cons]
        omega
      rw [show charsMembers (.cons k w (.cons k2 w2 tl2))
          = ('"' :: (escChars k.data ++ '"' :: ':' :: ' ' :: charsVal w))
            ++ ',' :: ' ' :: charsMembers (.cons k2 w2 tl2) from rfl]
      rw [show (('"' :: (escChars k.data ++ '"' :: ':' :: ' ' :: charsVal w))
            ++ ',' :: ' ' :: charsMembers (.cons k2 w2 tl2)) ++ '\x7d' :: rest
          = '"' :: (escChars k.data ++ '"' :: (':' :: ' ' :: (charsVal w
              ++ ',' :: ' ' :: (charsMembers (.cons k2 w2 tl2) ++ '\x7d' :: rest))))
          from by simp [List.cons_append, List.append_assoc]]
      have hv : parseVal f (skipSpaces (' ' :: (charsVal w
            ++ ',' :: ' ' :: (charsMembers (.cons k2 w2 tl2) ++ '\x7d' :: rest))))
          = some (w, ',' :: ' ' :: (charsMembers (.cons k2 w2 tl2) ++ '\x7d' :: rest)) := by
        rw [skipSpaces_space, skipSpaces_charsVal w _]
        exact parseVal_chars w f _ (by omega) rfl
      rw [parseMembers_comma f _ k.data
        (' ' :: (charsVal w ++ ',' :: ' ' :: (charsMembers (.cons k2 w2 tl2)
          ++ '\x7d' :: rest))) w
        (' ' :: (charsMembers (.cons k2 w2 tl2) ++ '\x7d' :: rest))
        (parseStringChars_esc k.data _) hv]
      rw [skipSpaces_space]
      rw [skipSpaces_charsMembers k2 w2 tl2 ('\x7d' :: rest)]
      rw [parseMembers_chars k2 w2 tl2 f rest (by omega)]
termination_by k w tl _ _ _ => 1 + sizeOf k + sizeOf w + sizeOf tl
end

/-- Stripping the `<json>` delimiter tag recovers exactly the wrapped
content for a well-wrapped response. -/
theorem stripJsonTags_encode (content : List Char) :
    stripJsonTags (openJsonChars ++ (content ++ ['<', '/', 'j', 's', 'o', 'n', '>']))
      = some content := by
  unfold stripJsonTags
  rw [findSub_of_isPre openJsonChars _ (isPre_append_self openJsonChars _)]
  rw [List.drop_left]
  simp only [Option.some_bind]
  rw [List.reverse_append]
  rw [show (['<', '/', 'j', 's', 'o', 'n', '>'] : List Char).reverse
      = closeJsonRevChars from rfl]
  rw [findSub_of_isPre closeJsonRevChars _ (isPre_append_self closeJsonRevChars _)]
  rw [List.drop_left]
  simp only [Option.map_some']
  rw [List.reverse_reverse]

/-- Parsing the serialization of any value as a whole document returns the
value. -/
theorem parseTop_charsVal (v : JsonValue) : parseTop (charsVal v) = some v := by
  unfold parseTop
  rw [show skipSpaces (charsVal v) = charsVal v from by
    have h := skipSpaces_charsVal v []
    rwa [List.append_nil] at h]
  rw [show parseVal ((charsVal v).length + 1) (charsVal v)
      = parseVal ((charsVal v).length + 1) (charsVal v ++ []) from by
    rw [List.append_nil]]
  rw [parseVal_chars v ((charsVal v).length + 1) [] (by omega) rfl]
  rfl

/-! ## Claim C4 -/

/-- C4: round trip through the JSON output convention — serializing any
nested mapping (indeed any JSON value) as a single JSON object wrapped in
the fixed `<json>` delimiter tag and parsing the result with the response
parser returns the original value. -/
theorem json_convention_roundtrips_mappings :
    (∀ ms : JsonObj, parseJsonResponse (encodeJsonTagged (.obj ms)) = some (.obj ms))
    ∧ (∀ v : JsonValue, parseJsonResponse (encodeJsonTagged v) = some v) := by
  have hall : ∀ v : JsonValue, parseJsonResponse (encodeJsonTagged v) = some v := by
    intro v
    unfold parseJsonResponse
    rw [show (encodeJsonTagged v).data
        = openJsonChars ++ (charsVal v ++ ['<', '/', 'j', 's', 'o', 'n', '>']) from by
      show ("<json>" ++ dumps v ++ "</json>").data = _
      rw [String.data_append, String.data_append, List.append_assoc]
      rfl]
    rw [stripJsonTags_encode (charsVal v)]
    exact parseTop_charsVal v
  exact ⟨fun ms => hall (.obj ms), hall⟩

end Kor
